import Mathlib

/-!
Shallow embedding of `src/cacher.py` (the `chacher` repository): a disk-backed
memoization cache with three operations, `cache_this` (a memoizing decorator),
`check` (lookup) and `store`.

Modelling conventions:
* Python values that may be pickled are modelled by `PyVal` (integers, tuples,
  and an `unpicklable` marker standing for objects that `pickle.dumps` rejects).
  The model universe is deliberately small; every claim is parametric in the value.
* `pickle.dumps` / `pickle.loads` are modelled by an executable, injective
  byte encoding (`encodeVal` / `pickleLoads`); `pickle` raising on an
  unserializable object is `encodeVal = none`, and a corrupt payload is a byte
  list outside the image of `encodeVal` (then `pickleLoads` returns `none`).
* `hashlib.sha256(...).hexdigest()` is modelled by `sha256hex`, an executable
  stand-in producing a 64-character lowercase-hex digest.  The claims rely only
  on determinism and the hex alphabet of the digest, never on collision
  resistance, so the exact compression function is irrelevant.
* `datetime` values are modelled by the `Ts` structure (year/month/day/
  hour/minute/second); `datetime.now().strftime("%Y%m%d%H%M%S")` is
  `strftime14`, `datetime.strptime` on a 14-digit token is `parseTs14`
  (including the calendar range checks that make `strptime` raise
  `ValueError`), and `now - timestamp <= time_limit` is `tsDiff now t ≤ tl`
  with `tl` the `timedelta` in seconds (an `Int`, so that a timestamp in the
  future gives a negative difference, which Python also treats as `≤ limit`).
* The cache directory is a list of files (`FsFile`), `os.listdir` returning the
  names in list order; the scan loops iterate over the snapshot taken at the
  start of the call while deletions mutate the threaded state, exactly as the
  Python loops iterate over `os.listdir(...)` evaluated once.
* Exceptions that escape a call are modelled by `Except.error`:
  `CErr.attributeError` is the `AttributeError` raised by `match.group(1)`
  when `re.search` returned `None`, `CErr.unpicklingError` is `pickle.load`
  raising on a corrupt payload, `CErr.picklingError` is `pickle.dump` raising
  on an unserializable result (the file already created by `open(..., 'wb')`
  is modelled with empty content).
* `cache_this` is modelled by `cacheThisCall`, one invocation of the decorated
  wrapper; its result carries a `Bool` that records whether the wrapped
  function was invoked during that call (pure instrumentation).
-/

namespace Cacher

/-- Python values as far as the cache is concerned: picklable scalars and
tuples, plus a marker for objects `pickle.dumps` rejects. -/
inductive PyVal where
  | pyint : Int → PyVal
  | pytuple : List PyVal → PyVal
  | unpicklable : Nat → PyVal

/-- Python strings are modelled as lists of characters. -/
abbrev PyStr := List Char

/-- Keyword-argument dictionaries: association lists from names to values. -/
abbrev Kwargs := List (PyStr × PyVal)

/-- Injection of an integer into a single byte token of the encoding. -/
def intTok : Int → Nat
  | .ofNat n => 2 * n
  | .negSucc n => 2 * n + 1

/-- Partial inverse of `intTok`. -/
def tokInt (k : Nat) : Int :=
  if k % 2 = 0 then .ofNat (k / 2) else .negSucc (k / 2)

mutual

/-- Model of `pickle.dumps` on a value: `none` when the value contains an
unserializable object (Python raises), otherwise a self-delimiting byte list. -/
def encodeVal : PyVal → Option (List Nat)
  | .pyint i => some [0, intTok i]
  | .pytuple l =>
    match encodeList l with
    | some cs => some (1 :: l.length :: cs)
    | none => none
  | .unpicklable _ => none

/-- Encoding of the elements of a tuple, in order. -/
def encodeList : List PyVal → Option (List Nat)
  | [] => some []
  | v :: vs =>
    match encodeVal v, encodeList vs with
    | some a, some b => some (a ++ b)
    | _, _ => none

end

mutual

/-- Fuelled decoder for one value: model of `pickle.load` reading one object
from the front of a byte list.  Returns the decoded value and the rest. -/
def decodeVal : Nat → List Nat → Option (PyVal × List Nat)
  | _ + 1, 0 :: k :: rest => some (.pyint (tokInt k), rest)
  | fuel + 1, 1 :: n :: rest =>
    match decodeList fuel n rest with
    | some (vs, r) => some (.pytuple vs, r)
    | none => none
  | _, _ => none

/-- Fuelled decoder for `n` consecutive values. -/
def decodeList : Nat → Nat → List Nat → Option (List PyVal × List Nat)
  | _, 0, bs => some ([], bs)
  | fuel + 1, n + 1, bs =>
    match decodeVal fuel bs with
    | some (v, r) =>
      match decodeList fuel n r with
      | some (vs, r2) => some (v :: vs, r2)
      | none => none
    | none => none
  | 0, _ + 1, _ => none

end

/-- Model of `pickle.load` on a whole file content: succeeds when the bytes
decode to exactly one value, `none` models `pickle.load` raising. -/
def pickleLoads (bs : List Nat) : Option PyVal :=
  match decodeVal (bs.length + 1) bs with
  | some (v, []) => some v
  | _ => none

/-- Encoding of a keyword dictionary (only used for key derivation, which is
why no decoder is needed for it). -/
def encodeKw : Kwargs → Option (List Nat)
  | [] => some []
  | (k, v) :: rest =>
    match encodeVal v, encodeKw rest with
    | some bv, some br => some (2 :: k.length :: k.map Char.toNat ++ bv ++ br)
    | _, _ => none

/-- Model of `pickle.dumps((args, kwargs))`, the serialized key the source
hashes; `none` models the `except` branch (serialization failure). -/
def dumpsKey (args : PyVal) (kw : Kwargs) : Option (List Nat) :=
  match encodeVal args, encodeKw kw with
  | some a, some b => some (3 :: a ++ b)
  | _, _ => none

/-- Hexadecimal digit characters. -/
def hexChar (n : Nat) : Char :=
  match n with
  | 0 => '0' | 1 => '1' | 2 => '2' | 3 => '3' | 4 => '4' | 5 => '5' | 6 => '6'
  | 7 => '7' | 8 => '8' | 9 => '9' | 10 => 'a' | 11 => 'b' | 12 => 'c'
  | 13 => 'd' | 14 => 'e' | _ => 'f'

/-- A 256-bit digest of a byte list.  Stand-in compression for
`hashlib.sha256`; the development only uses that it is a deterministic
function into 256-bit numbers. -/
def digest256 (bs : List Nat) : Nat :=
  bs.foldl (fun a b => (a * 1099511628211 + b + 1) % (2 ^ 256)) 14695981039346656037

/-- 64-character lowercase-hex rendering of a 256-bit number. -/
def toHex64 (n : Nat) : PyStr :=
  (List.range 64).map (fun i => hexChar (n / 16 ^ (63 - i) % 16))

/-- Model of `hashlib.sha256(bs).hexdigest()`. -/
def sha256hex (bs : List Nat) : PyStr :=
  toHex64 (digest256 bs)

/-- Calendar timestamp with second resolution, the shape
`datetime.strftime("%Y%m%d%H%M%S")` exposes. -/
structure Ts where
  year : Nat
  month : Nat
  day : Nat
  hour : Nat
  minute : Nat
  second : Nat
deriving DecidableEq

/-- Gregorian leap-year rule. -/
def isLeap (y : Nat) : Bool :=
  (y % 4 == 0 && y % 100 != 0) || y % 400 == 0

/-- Number of days of month `m` (1–12) in year `y`. -/
def daysInMonth (y m : Nat) : Nat :=
  match m with
  | 1 => 31 | 2 => if isLeap y then 29 else 28 | 3 => 31 | 4 => 30 | 5 => 31
  | 6 => 30 | 7 => 31 | 8 => 31 | 9 => 30 | 10 => 31 | 11 => 30 | 12 => 31
  | _ => 0

/-- The ranges `datetime` accepts (what `strptime` checks before building a
`datetime`; out-of-range fields raise `ValueError`). -/
def validTs (t : Ts) : Bool :=
  1 ≤ t.year && t.year ≤ 9999 && 1 ≤ t.month && t.month ≤ 12 &&
  1 ≤ t.day && t.day ≤ daysInMonth t.year t.month &&
  t.hour ≤ 23 && t.minute ≤ 59 && t.second ≤ 59

/-- Days of the proleptic Gregorian calendar strictly before year `y`. -/
def daysBeforeYear (y : Nat) : Nat :=
  (y - 1) * 365 + (y - 1) / 4 - (y - 1) / 100 + (y - 1) / 400

/-- Days of year `y` strictly before month `m`. -/
def daysBeforeMonth (y m : Nat) : Nat :=
  match m with
  | 0 => 0
  | mm + 1 => daysBeforeMonth y mm + daysInMonth y mm

/-- Seconds since the calendar origin; only used through differences, which is
all `now - timestamp` needs. -/
def toSec (t : Ts) : Nat :=
  (daysBeforeYear t.year + daysBeforeMonth t.year t.month + (t.day - 1)) * 86400 +
    t.hour * 3600 + t.minute * 60 + t.second

/-- Model of the `timedelta` `now - t` in seconds (negative when `t` is in the
future, as in Python). -/
def tsDiff (now t : Ts) : Int :=
  (toSec now : Int) - toSec t

/-- Decimal digit character for `n % 10`. -/
def digitChar (n : Nat) : Char :=
  match n with
  | 0 => '0' | 1 => '1' | 2 => '2' | 3 => '3' | 4 => '4'
  | 5 => '5' | 6 => '6' | 7 => '7' | 8 => '8' | _ => '9'

/-- Numeric value of a decimal digit character. -/
def dv (c : Char) : Nat := c.toNat - 48

/-- Is `c` one of `'0'`–`'9'`? -/
def isDig (c : Char) : Bool :=
  48 ≤ c.toNat && c.toNat ≤ 57

/-- Two-digit zero-padded rendering. -/
def pad2 (n : Nat) : PyStr := [digitChar (n / 10 % 10), digitChar (n % 10)]

/-- Four-digit zero-padded rendering. -/
def pad4 (n : Nat) : PyStr :=
  [digitChar (n / 1000 % 10), digitChar (n / 100 % 10),
   digitChar (n / 10 % 10), digitChar (n % 10)]

/-- Model of `datetime.strftime("%Y%m%d%H%M%S")`. -/
def strftime14 (t : Ts) : PyStr :=
  pad4 t.year ++ pad2 t.month ++ pad2 t.day ++ pad2 t.hour ++
    pad2 t.minute ++ pad2 t.second

/-- Model of `datetime.strptime(ds, "%Y%m%d%H%M%S")` on a 14-digit token:
positional field parse plus the range checks; `none` models `ValueError`. -/
def parseTs14 (ds : PyStr) : Option Ts :=
  match ds with
  | [y1, y2, y3, y4, m1, m2, d1, d2, h1, h2, n1, n2, s1, s2] =>
    let t : Ts := ⟨dv y1 * 1000 + dv y2 * 100 + dv y3 * 10 + dv y4,
                   dv m1 * 10 + dv m2, dv d1 * 10 + dv d2,
                   dv h1 * 10 + dv h2, dv n1 * 10 + dv n2, dv s1 * 10 + dv s2⟩
    if validTs t then some t else none
  | _ => none

/-- The constant suffix `".pkl"`. -/
def pklSuffix : PyStr := ['.', 'p', 'k', 'l']

/-- Model of `re.search(r"(\d{14})\.pkl$", s)` followed by `.group(1)`:
`some` exactly when `s` ends with fourteen digits followed by `".pkl"`,
returning those fourteen digits; `none` models `re.search` returning `None`. -/
def regexTs (s : PyStr) : Option PyStr :=
  if 18 ≤ s.length ∧ s.drop (s.length - 4) = pklSuffix ∧
      ((s.drop (s.length - 18)).take 14).all isDig then
    some ((s.drop (s.length - 18)).take 14)
  else none

/-- Model of `s.split('_', 1)` when it yields two pieces: the part before the
first `'_'` and everything after it.  `none` models the one-piece result, on
which the tuple unpacking in the source raises `ValueError`. -/
def splitFirst (sep : Char) : PyStr → Option (PyStr × PyStr)
  | [] => none
  | c :: cs =>
    if c = sep then some ([], cs)
    else
      match splitFirst sep cs with
      | some (b, a) => some (c :: b, a)
      | none => none

/-- Model of `datetime.strptime(s, "%Y%m%d%H%M%S.pkl")`: the whole string must
be fourteen digits followed by `".pkl"` (real `strptime` also accepts years
shorter than four digits; no claim depends on tokens of other lengths). -/
def strptimePkl (s : PyStr) : Option Ts :=
  if s.length = 18 ∧ (s.take 14).all isDig ∧ s.drop 14 = pklSuffix then
    parseTs14 (s.take 14)
  else none

/-- One file of the flat cache directory. -/
structure FsFile where
  name : PyStr
  content : List Nat
deriving DecidableEq

/-- The cache directory: `os.listdir` returns the names in list order. -/
abbrev CacheState := List FsFile

/-- Model of `os.remove` on the file called `n`. -/
def removeFile (n : PyStr) (st : CacheState) : CacheState :=
  st.filter (fun f => decide (f.name ≠ n))

/-- Model of `open(path, 'wb')` followed by a full write: truncates the
existing file of that name if present (the silent-overwrite path), otherwise
creates a new directory entry at the end. -/
def writeFile (n : PyStr) (content : List Nat) (st : CacheState) : CacheState :=
  if st.any (fun f => decide (f.name = n)) then
    st.map (fun f => if f.name = n then ⟨n, content⟩ else f)
  else st ++ [⟨n, content⟩]

/-- Errors that escape `check` / `store` / the decorated wrapper. -/
inductive CErr where
  | attributeError
  | unpicklingError
  | picklingError
deriving DecidableEq

/-- `args` coercion at the top of `check` and `store`:
`if not isinstance(args, tuple): args = (args,)`. -/
def isTuple : PyVal → Bool
  | .pytuple _ => true
  | _ => false

/-- Normalisation of the `args` parameter shared by `check` and `store`. -/
def normalizeArgs (a : PyVal) : PyVal :=
  if isTuple a then a else .pytuple [a]

/-- `file_prefix = f"{name}_{key}" if name else key` (an absent or empty
namespace string is falsy in Python). -/
def mkFilePre (name : Option PyStr) (key : PyStr) : PyStr :=
  match name with
  | some n => if n = [] then key else n ++ '_' :: key
  | none => key

/-- `if name and not filename.startswith(name): continue`. -/
def nameSkip (name : Option PyStr) (fname : PyStr) : Bool :=
  match name with
  | some n => !n.isEmpty && !(n.isPrefixOf fname)
  | none => false

/-- The scan loop of `check` (`src/cacher.py` lines 128–149): iterates over the
`os.listdir` snapshot, deleting stale or unparseable entries from the threaded
state and returning on the first live entry. -/
def checkLoop (pfx : PyStr) (name : Option PyStr) (tl : Int) (now : Ts) :
    List FsFile → CacheState → Except CErr (Bool × Option PyVal) × CacheState
  | [], st => (Except.ok (false, none), st)
  | f :: rest, st =>
    if nameSkip name f.name then checkLoop pfx name tl now rest st
    else if pfx.isPrefixOf f.name then
      match regexTs f.name with
      | none => (Except.error CErr.attributeError, st)
      | some ds =>
        match parseTs14 ds with
        | none => checkLoop pfx name tl now rest (removeFile f.name st)
        | some t =>
          if tsDiff now t ≤ tl then
            match pickleLoads f.content with
            | some v => (Except.ok (true, some v), st)
            | none => (Except.error CErr.unpicklingError, st)
          else checkLoop pfx name tl now rest (removeFile f.name st)
    else checkLoop pfx name tl now rest st

/-- Model of `check(args, kwargs, name, time_limit)` at time `now` on
directory `st` (`src/cacher.py` lines 91–150). -/
def check (args : PyVal) (kwargs : Option Kwargs) (name : Option PyStr)
    (tl : Int) (now : Ts) (st : CacheState) :
    Except CErr (Bool × Option PyVal) × CacheState :=
  let argsT := normalizeArgs args
  let kw := kwargs.getD []
  match dumpsKey argsT kw with
  | none => (Except.ok (false, none), st)
  | some bs => checkLoop (mkFilePre name (sha256hex bs)) name tl now st st

/-- Model of `store(result, args, kwargs, name, time_limit)` at time `now`
(`src/cacher.py` lines 153–194).  The `time_limit` parameter of the source is
accepted and, as in the source, never used. -/
def store (result : PyVal) (args : PyVal) (kwargs : Option Kwargs)
    (name : Option PyStr) (_timeLimit : Int) (now : Ts) (st : CacheState) :
    Except CErr Unit × CacheState :=
  let argsT := normalizeArgs args
  let kw := kwargs.getD []
  match dumpsKey argsT kw with
  | none => (Except.ok (), st)
  | some bs =>
    let fname := mkFilePre name (sha256hex bs) ++ '_' :: strftime14 now ++ pklSuffix
    match encodeVal result with
    | some content => (Except.ok (), writeFile fname content st)
    | none => (Except.error CErr.picklingError, writeFile fname [] st)

/-- The key the decorator derives, falling back to the literal `"key_error"`
when serialization fails (`src/cacher.py` lines 44–48). -/
def keyErrorKey : PyStr := ['k', 'e', 'y', '_', 'e', 'r', 'r', 'o', 'r']

/-- Outcome of the decorator's scan loop: an early return (cached value or the
`pickle.load` exception) or falling through to recomputation. -/
inductive LoopOut where
  | hit : Except CErr PyVal → LoopOut
  | fallthrough : LoopOut

/-- The scan loop of the decorated wrapper (`src/cacher.py` lines 54–78),
with its `filename.split('_', 1)` / `strptime("%Y%m%d%H%M%S.pkl")` parse. -/
def cacheLoop (pfx : PyStr) (name : Option PyStr) (tl : Int) (now : Ts) :
    List FsFile → CacheState → LoopOut × CacheState
  | [], st => (.fallthrough, st)
  | f :: rest, st =>
    if nameSkip name f.name then cacheLoop pfx name tl now rest st
    else if pfx.isPrefixOf f.name then
      match splitFirst '_' f.name with
      | none => cacheLoop pfx name tl now rest (removeFile f.name st)
      | some (_, tstr) =>
        match strptimePkl tstr with
        | none => cacheLoop pfx name tl now rest (removeFile f.name st)
        | some t =>
          if tsDiff now t ≤ tl then
            match pickleLoads f.content with
            | some v => (.hit (Except.ok v), st)
            | none => (.hit (Except.error CErr.unpicklingError), st)
          else cacheLoop pfx name tl now rest (removeFile f.name st)
    else cacheLoop pfx name tl now rest st

/-- Model of one invocation of the wrapper produced by
`cache_this(name, time_limit)` applied to a pure function `func`
(`src/cacher.py` lines 36–87).  The boolean in the result records whether
`func` was invoked during this call. -/
def cacheThisCall (func : List PyVal → Kwargs → PyVal) (name : Option PyStr)
    (tl : Int) (args : List PyVal) (kwargs : Kwargs) (now : Ts)
    (st : CacheState) : Except CErr (PyVal × Bool) × CacheState :=
  let key :=
    match dumpsKey (.pytuple args) kwargs with
    | some bs => sha256hex bs
    | none => keyErrorKey
  let pfx := mkFilePre name key
  match cacheLoop pfx name tl now st st with
  | (.hit (Except.ok v), st') => (Except.ok (v, false), st')
  | (.hit (Except.error e), st') => (Except.error e, st')
  | (.fallthrough, st') =>
    let result := func args kwargs
    let fname := pfx ++ '_' :: strftime14 now ++ pklSuffix
    match encodeVal result with
    | some content => (Except.ok (result, true), writeFile fname content st')
    | none => (Except.error CErr.picklingError, writeFile fname [] st')

/-- Names deleted by a `check` scan over a segment of the snapshot in which no
entry answers: the prefix-matching entries whose timestamp token is
unparseable or expired. -/
def scanDeletes (pfx : PyStr) (name : Option PyStr) (tl : Int) (now : Ts)
    (files : List FsFile) : List PyStr :=
  files.filterMap (fun g =>
    if nameSkip name g.name then none
    else if pfx.isPrefixOf g.name then
      match regexTs g.name with
      | none => none
      | some ds =>
        match parseTs14 ds with
        | none => some g.name
        | some t => if tsDiff now t ≤ tl then none else some g.name
    else none)

/-- Removal of a batch of names, in order. -/
def removeAll (ns : List PyStr) (st : CacheState) : CacheState :=
  match ns with
  | [] => st
  | n :: rest => removeAll rest (removeFile n st)

/-- A directory entry on which a `check` scan does not return: it is filtered
out by the namespace or fingerprint test, or its timestamp token is
unparseable, or it is expired (the latter two being the deletion cases). -/
def scanPasses (pfx : PyStr) (name : Option PyStr) (tl : Int) (now : Ts)
    (g : FsFile) : Prop :=
  nameSkip name g.name = true ∨ pfx.isPrefixOf g.name = false ∨
    ∃ ds, regexTs g.name = some ds ∧
      (parseTs14 ds = none ∨ ∃ t, parseTs14 ds = some t ∧ ¬ tsDiff now t ≤ tl)

/-- The fingerprint of the running example `args = 0`, `kwargs` absent, used by
the concrete counterexample scenarios. -/
def exKey : PyStr :=
  sha256hex ((dumpsKey (normalizeArgs (.pyint 0)) []).getD [])

/-- A well-formed entry name of the running example: fingerprint `exKey`, no
namespace, timestamp `t`. -/
def exEntryName (t : Ts) : PyStr :=
  exKey ++ '_' :: strftime14 t ++ pklSuffix

/-! ### Round-trip of the serialization model -/

theorem tokInt_intTok (i : Int) : tokInt (intTok i) = i := by
  cases i with
  | ofNat n =>
    simp only [intTok, tokInt]
    rw [if_pos (by omega)]
    congr 1
    omega
  | negSucc n =>
    simp only [intTok, tokInt]
    rw [if_neg (by omega)]
    congr 1
    omega

theorem encodeVal_ne_nil {v : PyVal} {bs : List Nat} (h : encodeVal v = some bs) :
    1 ≤ bs.length := by
  cases v with
  | pyint i =>
    simp only [encodeVal, Option.some.injEq] at h
    subst h
    simp
  | pytuple l =>
    cases hl : encodeList l with
    | none => rw [encodeVal, hl] at h; cases h
    | some cs =>
      rw [encodeVal, hl] at h
      simp only [Option.some.injEq] at h
      subst h
      simp
  | unpicklable k => cases h

theorem decode_encode (fuel : Nat) :
    (∀ v bs rest, encodeVal v = some bs → bs.length ≤ fuel →
      decodeVal fuel (bs ++ rest) = some (v, rest)) ∧
    (∀ l cs rest, encodeList l = some cs → cs.length < fuel →
      decodeList fuel l.length (cs ++ rest) = some (l, rest)) := by
  induction fuel with
  | zero =>
    constructor
    · intro v bs rest h hlen
      have := encodeVal_ne_nil h
      omega
    · intro l cs rest h hlen
      omega
  | succ m ih =>
    obtain ⟨ihV, ihL⟩ := ih
    constructor
    · intro v bs rest h hlen
      cases v with
      | pyint i =>
        simp only [encodeVal, Option.some.injEq] at h
        subst h
        simp [decodeVal, tokInt_intTok]
      | pytuple l =>
        cases hl : encodeList l with
        | none => rw [encodeVal, hl] at h; cases h
        | some cs =>
          rw [encodeVal, hl] at h
          simp only [Option.some.injEq] at h
          subst h
          have hcs : cs.length < m := by
            simp only [List.length_cons] at hlen
            omega
          simp only [List.cons_append, decodeVal]
          rw [ihL l cs rest hl hcs]
      | unpicklable k => cases h
    · intro l cs rest h hlen
      cases l with
      | nil =>
        simp only [encodeList, Option.some.injEq] at h
        subst h
        simp [decodeList]
      | cons v vs =>
        cases hv : encodeVal v with
        | none => rw [encodeList, hv] at h; cases h
        | some a =>
          cases hvs : encodeList vs with
          | none => rw [encodeList, hv, hvs] at h; cases h
          | some b =>
            rw [encodeList, hv, hvs] at h
            simp only [Option.some.injEq] at h
            subst h
            have ha := encodeVal_ne_nil hv
            have hab : a.length + b.length < m + 1 := by
              simpa using hlen
            simp only [List.length_cons, decodeList, List.append_assoc]
            rw [ihV v a (b ++ rest) hv (by omega)]
            simp only [ihL vs b rest hvs (by omega)]

theorem pickleLoads_encodeVal {v : PyVal} {bs : List Nat}
    (h : encodeVal v = some bs) : pickleLoads bs = some v := by
  have hd := (decode_encode (bs.length + 1)).1 v bs [] h (by omega)
  rw [List.append_nil] at hd
  rw [pickleLoads, hd]

/-! ### Timestamp formatting and parsing -/

theorem dv_digitChar {n : Nat} (h : n < 10) : dv (digitChar n) = n := by
  interval_cases n <;> rfl

theorem dv_digitChar_mod (m : Nat) : dv (digitChar (m % 10)) = m % 10 :=
  dv_digitChar (Nat.mod_lt _ (by omega))

theorem isDig_digitChar_mod (m : Nat) : isDig (digitChar (m % 10)) = true := by
  have h : m % 10 < 10 := Nat.mod_lt _ (by omega)
  generalize hk : m % 10 = k at h
  interval_cases k <;> rfl

theorem strftime14_length (t : Ts) : (strftime14 t).length = 14 := by
  simp [strftime14, pad4, pad2]

theorem strftime14_all_dig (t : Ts) : (strftime14 t).all isDig = true := by
  obtain ⟨y, mo, d, hh, mi, s⟩ := t
  simp [strftime14, pad4, pad2, isDig_digitChar_mod]

theorem parseTs14_strftime14 {t : Ts} (h : validTs t = true) :
    parseTs14 (strftime14 t) = some t := by
  obtain ⟨y, mo, d, hh, mi, s⟩ := t
  simp only [validTs, Bool.and_eq_true, decide_eq_true_eq] at h
  obtain ⟨⟨⟨⟨⟨⟨⟨⟨hy1, hy2⟩, hm1⟩, hm2⟩, hd1⟩, hd2⟩, hh1⟩, hn1⟩, hs1⟩ := h
  have hmod : ∀ a b : Nat, a < b → a % b = a := fun a b hab => Nat.mod_eq_of_lt hab
  simp only [strftime14, pad4, pad2, List.cons_append, List.nil_append, parseTs14,
    dv_digitChar_mod]
  have ey : y / 1000 % 10 * 1000 + y / 100 % 10 * 100 + y / 10 % 10 * 10 + y % 10 = y := by
    omega
  have emo : mo / 10 % 10 * 10 + mo % 10 = mo := by omega
  have ed : d / 10 % 10 * 10 + d % 10 = d := by
    have : d ≤ 31 := by
      have h31 : daysInMonth y mo ≤ 31 := by
        rcases mo with _ | _ | _ | _ | _ | _ | _ | _ | _ | _ | _ | _ | _ <;>
          simp_all [daysInMonth] <;> split <;> omega
      omega
    omega
  have eh : hh / 10 % 10 * 10 + hh % 10 = hh := by omega
  have en : mi / 10 % 10 * 10 + mi % 10 = mi := by omega
  have es : s / 10 % 10 * 10 + s % 10 = s := by omega
  rw [ey, emo, ed, eh, en, es]
  rw [if_pos]
  simp only [validTs, Bool.and_eq_true, decide_eq_true_eq]
  omega

/-! ### Filename grammar -/

theorem prefixOf_append (l rest : PyStr) : l.isPrefixOf (l ++ rest) = true :=
  List.isPrefixOf_iff_prefix.mpr (List.prefix_append l rest)

theorem ne_of_not_prefixOf {g pfx rest : PyStr}
    (h : pfx.isPrefixOf g = false) : g ≠ pfx ++ rest := by
  intro he
  rw [he, prefixOf_append] at h
  cases h

theorem prefixOf_append₂ (l x y : PyStr) : l.isPrefixOf (l ++ x ++ y) = true := by
  rw [List.append_assoc]
  exact prefixOf_append l (x ++ y)

theorem ne_of_not_prefixOf₂ {g pfx : PyStr} (x y : PyStr)
    (h : pfx.isPrefixOf g = false) : g ≠ pfx ++ x ++ y := by
  rw [List.append_assoc]
  exact ne_of_not_prefixOf h

theorem nameSkip_mkFilePre (name : Option PyStr) (key rest : PyStr) :
    nameSkip name (mkFilePre name key ++ rest) = false := by
  cases name with
  | none => rfl
  | some n =>
    by_cases hn : n = []
    · subst hn
      simp [nameSkip, mkFilePre]
    · have : mkFilePre (some n) key ++ rest = n ++ ('_' :: key ++ rest) := by
        simp [mkFilePre, hn]
      rw [this]
      simp [nameSkip, prefixOf_append]

theorem nameSkip_mkFilePre₂ (name : Option PyStr) (key x y : PyStr) :
    nameSkip name (mkFilePre name key ++ x ++ y) = false := by
  rw [List.append_assoc]
  exact nameSkip_mkFilePre name key (x ++ y)

theorem regexTs_concat {X ds : PyStr} (hlen : ds.length = 14)
    (hdig : ds.all isDig = true) :
    regexTs (X ++ ds ++ pklSuffix) = some ds := by
  have hL : (X ++ ds ++ pklSuffix).length = X.length + 18 := by
    simp [pklSuffix, hlen]
  have h1 : (X ++ ds ++ pklSuffix).drop (X.length + 18 - 4) = pklSuffix := by
    have he : X.length + 18 - 4 = (X ++ ds).length := by simp [hlen]
    rw [he, List.drop_left]
  have h2 : ((X ++ ds ++ pklSuffix).drop (X.length + 18 - 18)).take 14 = ds := by
    have hx : X.length + 18 - 18 = X.length := by omega
    rw [hx, List.append_assoc, List.drop_left]
    have h14 : (14 : Nat) = ds.length := hlen.symm
    rw [h14, List.take_left]
  rw [regexTs, hL, h1, h2]
  rw [if_pos ⟨by omega, rfl, hdig⟩]

/-- The entry name written by `store` (and by the decorator) for file
prefix `pfx` and write time `t1` decomposes as required by `regexTs`. -/
theorem regexTs_entryName (pfx : PyStr) (t1 : Ts) :
    regexTs (pfx ++ '_' :: strftime14 t1 ++ pklSuffix) = some (strftime14 t1) := by
  have he : pfx ++ '_' :: strftime14 t1 ++ pklSuffix =
      (pfx ++ ['_']) ++ strftime14 t1 ++ pklSuffix := by
    simp
  rw [he, regexTs_concat (strftime14_length t1) (strftime14_all_dig t1)]

/-! ### The `check` scan loop -/

theorem prefixOf_false_iff {l₁ l₂ : PyStr} : l₁.isPrefixOf l₂ = false ↔ ¬ l₁ <+: l₂ := by
  rw [Bool.eq_false_iff, Ne, List.isPrefixOf_iff_prefix]

theorem checkLoop_cons_skip {pfx : PyStr} {name : Option PyStr} {tl : Int} {now : Ts}
    {f : FsFile} (rest : List FsFile) (st : CacheState)
    (h : nameSkip name f.name = true) :
    checkLoop pfx name tl now (f :: rest) st = checkLoop pfx name tl now rest st := by
  simp [checkLoop, h]

theorem checkLoop_cons_away {pfx : PyStr} {name : Option PyStr} {tl : Int} {now : Ts}
    {f : FsFile} (rest : List FsFile) (st : CacheState)
    (h1 : nameSkip name f.name = false) (h2 : pfx.isPrefixOf f.name = false) :
    checkLoop pfx name tl now (f :: rest) st = checkLoop pfx name tl now rest st := by
  simp [checkLoop, h1, h2, prefixOf_false_iff.mp h2]

theorem checkLoop_cons_badparse {pfx : PyStr} {name : Option PyStr} {tl : Int} {now : Ts}
    {f : FsFile} (rest : List FsFile) (st : CacheState) {ds : PyStr}
    (h1 : nameSkip name f.name = false) (h2 : pfx.isPrefixOf f.name = true)
    (h3 : regexTs f.name = some ds) (h4 : parseTs14 ds = none) :
    checkLoop pfx name tl now (f :: rest) st =
      checkLoop pfx name tl now rest (removeFile f.name st) := by
  simp [checkLoop, h1, h2, h3, h4, List.isPrefixOf_iff_prefix.mp h2]

theorem checkLoop_cons_expired {pfx : PyStr} {name : Option PyStr} {tl : Int} {now : Ts}
    {f : FsFile} (rest : List FsFile) (st : CacheState) {ds : PyStr} {t : Ts}
    (h1 : nameSkip name f.name = false) (h2 : pfx.isPrefixOf f.name = true)
    (h3 : regexTs f.name = some ds) (h4 : parseTs14 ds = some t)
    (h5 : ¬ tsDiff now t ≤ tl) :
    checkLoop pfx name tl now (f :: rest) st =
      checkLoop pfx name tl now rest (removeFile f.name st) := by
  simp [checkLoop, h1, h2, h3, h4, h5, List.isPrefixOf_iff_prefix.mp h2]

theorem checkLoop_hit {pfx : PyStr} {name : Option PyStr} {tl : Int} {now : Ts}
    {f : FsFile} (rest : List FsFile) (st : CacheState) {ds : PyStr} {t : Ts} {v : PyVal}
    (h1 : nameSkip name f.name = false) (h2 : pfx.isPrefixOf f.name = true)
    (h3 : regexTs f.name = some ds) (h4 : parseTs14 ds = some t)
    (h5 : tsDiff now t ≤ tl) (h6 : pickleLoads f.content = some v) :
    checkLoop pfx name tl now (f :: rest) st = (Except.ok (true, some v), st) := by
  simp [checkLoop, h1, h2, h3, h4, h5, h6, List.isPrefixOf_iff_prefix.mp h2]

theorem checkLoop_err {pfx : PyStr} {name : Option PyStr} {tl : Int} {now : Ts}
    {f : FsFile} (rest : List FsFile) (st : CacheState) {ds : PyStr} {t : Ts}
    (h1 : nameSkip name f.name = false) (h2 : pfx.isPrefixOf f.name = true)
    (h3 : regexTs f.name = some ds) (h4 : parseTs14 ds = some t)
    (h5 : tsDiff now t ≤ tl) (h6 : pickleLoads f.content = none) :
    checkLoop pfx name tl now (f :: rest) st = (Except.error CErr.unpicklingError, st) := by
  simp [checkLoop, h1, h2, h3, h4, h5, h6, List.isPrefixOf_iff_prefix.mp h2]

theorem scanDeletes_cons_none {pfx : PyStr} {name : Option PyStr} {tl : Int} {now : Ts}
    {g : FsFile} (pre : List FsFile)
    (h : nameSkip name g.name = true ∨ pfx.isPrefixOf g.name = false ∨
      ∃ ds t, regexTs g.name = some ds ∧ parseTs14 ds = some t ∧ tsDiff now t ≤ tl) :
    scanDeletes pfx name tl now (g :: pre) = scanDeletes pfx name tl now pre := by
  rcases h with h | h | ⟨ds, t, hds, ht, hlive⟩
  · simp [scanDeletes, h]
  · by_cases hsk : nameSkip name g.name = true <;>
      simp [scanDeletes, hsk, h, prefixOf_false_iff.mp h]
  · by_cases hsk : nameSkip name g.name = true
    · simp [scanDeletes, hsk]
    · by_cases hpf : pfx.isPrefixOf g.name = true
      · simp [scanDeletes, hsk, hpf, hds, ht, hlive, List.isPrefixOf_iff_prefix.mp hpf]
      · have hpf2 : pfx.isPrefixOf g.name = false := by
          cases hb : pfx.isPrefixOf g.name
          · rfl
          · exact absurd hb hpf
        simp [scanDeletes, hsk, prefixOf_false_iff.mp hpf2]

theorem scanDeletes_cons_del {pfx : PyStr} {name : Option PyStr} {tl : Int} {now : Ts}
    {g : FsFile} (pre : List FsFile) {ds : PyStr}
    (h1 : nameSkip name g.name = false) (h2 : pfx.isPrefixOf g.name = true)
    (h3 : regexTs g.name = some ds)
    (h4 : parseTs14 ds = none ∨ ∃ t, parseTs14 ds = some t ∧ ¬ tsDiff now t ≤ tl) :
    scanDeletes pfx name tl now (g :: pre) =
      g.name :: scanDeletes pfx name tl now pre := by
  rcases h4 with h4 | ⟨t, ht, hexp⟩
  · simp [scanDeletes, h1, h2, h3, h4, List.isPrefixOf_iff_prefix.mp h2]
  · simp [scanDeletes, h1, h2, h3, ht, hexp, List.isPrefixOf_iff_prefix.mp h2]

theorem checkLoop_scan (pfx : PyStr) (name : Option PyStr) (tl : Int) (now : Ts)
    (pre : List FsFile) (hpre : ∀ g ∈ pre, scanPasses pfx name tl now g) :
    ∀ (rest : List FsFile) (st : CacheState),
      checkLoop pfx name tl now (pre ++ rest) st =
        checkLoop pfx name tl now rest (removeAll (scanDeletes pfx name tl now pre) st) := by
  induction pre with
  | nil => intro rest st; simp [scanDeletes, removeAll]
  | cons g pre ih =>
    intro rest st
    have hg := hpre g (by simp)
    have hrest : ∀ x ∈ pre, scanPasses pfx name tl now x := fun x hx => hpre x (by simp [hx])
    rcases hg with hskip | hnpfx | ⟨ds, hds, hparse⟩
    · rw [List.cons_append, checkLoop_cons_skip _ _ hskip,
        scanDeletes_cons_none pre (Or.inl hskip)]
      exact ih hrest rest st
    · by_cases hsk : nameSkip name g.name = true
      · rw [List.cons_append, checkLoop_cons_skip _ _ hsk,
          scanDeletes_cons_none pre (Or.inl hsk)]
        exact ih hrest rest st
      · have hsk2 : nameSkip name g.name = false := by
          cases hb : nameSkip name g.name
          · rfl
          · exact absurd hb hsk
        rw [List.cons_append, checkLoop_cons_away _ _ hsk2 hnpfx,
          scanDeletes_cons_none pre (Or.inr (Or.inl hnpfx))]
        exact ih hrest rest st
    · by_cases hsk : nameSkip name g.name = true
      · rw [List.cons_append, checkLoop_cons_skip _ _ hsk,
          scanDeletes_cons_none pre (Or.inl hsk)]
        exact ih hrest rest st
      · have hsk2 : nameSkip name g.name = false := by
          cases hb : nameSkip name g.name
          · rfl
          · exact absurd hb hsk
        by_cases hpf : pfx.isPrefixOf g.name = true
        · rw [List.cons_append, scanDeletes_cons_del pre hsk2 hpf hds hparse]
          rcases hparse with hnone | ⟨t, ht, hexp⟩
          · rw [checkLoop_cons_badparse _ _ hsk2 hpf hds hnone]
            exact ih hrest rest (removeFile g.name st)
          · rw [checkLoop_cons_expired _ _ hsk2 hpf hds ht hexp]
            exact ih hrest rest (removeFile g.name st)
        · have hpf2 : pfx.isPrefixOf g.name = false := by
            cases hb : pfx.isPrefixOf g.name
            · rfl
            · exact absurd hb hpf
          rw [List.cons_append, checkLoop_cons_away _ _ hsk2 hpf2,
            scanDeletes_cons_none pre (Or.inr (Or.inl hpf2))]
          exact ih hrest rest st

theorem scanDeletes_skip (pfx : PyStr) (name : Option PyStr) (tl : Int) (now : Ts)
    (pre : List FsFile)
    (hpre : ∀ g ∈ pre, nameSkip name g.name = true ∨ pfx.isPrefixOf g.name = false) :
    scanDeletes pfx name tl now pre = [] := by
  induction pre with
  | nil => rfl
  | cons g pre ih =>
    rw [scanDeletes_cons_none pre ((hpre g (by simp)).imp id Or.inl)]
    exact ih (fun x hx => hpre x (by simp [hx]))

/-! ### Directory write and delete helpers -/

theorem writeFile_fresh {n : PyStr} {c : List Nat} {st : CacheState}
    (h : ∀ f ∈ st, f.name ≠ n) : writeFile n c st = st ++ [⟨n, c⟩] := by
  rw [writeFile, if_neg]
  intro hc
  rw [List.any_eq_true] at hc
  obtain ⟨f, hf, hfe⟩ := hc
  exact h f hf (by simpa using hfe)

theorem writeFile_replace {n : PyStr} {c1 c2 : List Nat} {st : CacheState}
    (h : ∀ f ∈ st, f.name ≠ n) :
    writeFile n c2 (st ++ [⟨n, c1⟩]) = st ++ [⟨n, c2⟩] := by
  rw [writeFile, if_pos]
  · rw [List.map_append]
    congr 1
    · have he : ∀ f ∈ st, (if f.name = n then (⟨n, c2⟩ : FsFile) else f) = f :=
        fun f hf => if_neg (h f hf)
      rw [List.map_congr_left he]
      simp
    · simp
  · rw [List.any_eq_true]
    exact ⟨⟨n, c1⟩, by simp, by simp⟩

theorem mem_writeFile {g : FsFile} {n : PyStr} {c : List Nat} {st : CacheState}
    (h : g ∈ writeFile n c st) : g ∈ st ∨ g = ⟨n, c⟩ := by
  rw [writeFile] at h
  split at h
  · obtain ⟨f, hf, hfe⟩ := List.mem_map.mp h
    by_cases hn : f.name = n
    · right
      rw [if_pos hn] at hfe
      exact hfe.symm
    · left
      rw [if_neg hn] at hfe
      exact hfe ▸ hf
  · rcases List.mem_append.mp h with h1 | h1
    · exact Or.inl h1
    · right
      simpa using h1

theorem removeFile_append_single {f : FsFile} {st : CacheState}
    (h : ∀ g ∈ st, g.name ≠ f.name) : removeFile f.name (st ++ [f]) = st := by
  rw [removeFile, List.filter_append]
  have h1 : st.filter (fun g => decide (g.name ≠ f.name)) = st :=
    List.filter_eq_self.mpr fun g hg => by simpa using h g hg
  rw [h1]
  simp

/-- What `store` does on a directory holding no entry for its file prefix:
one fresh entry appended, named prefix-underscore-timestamp-suffix. -/
theorem store_fresh {v args : PyVal} {kwargs : Option Kwargs} {name : Option PyStr}
    {stl : Int} {t1 : Ts} {st : CacheState} {bs content : List Nat}
    (hkey : dumpsKey (normalizeArgs args) (kwargs.getD []) = some bs)
    (hv : encodeVal v = some content)
    (hst : ∀ f ∈ st, (mkFilePre name (sha256hex bs)).isPrefixOf f.name = false) :
    store v args kwargs name stl t1 st =
      (Except.ok (),
        st ++ [⟨mkFilePre name (sha256hex bs) ++ '_' :: strftime14 t1 ++ pklSuffix,
               content⟩]) := by
  simp only [store, hkey, hv]
  rw [writeFile_fresh]
  intro f hf
  exact ne_of_not_prefixOf₂ _ _ (hst f hf)

/-! ### Claim theorems -/

/-- **C1**: storing a serializable value under a serializable key and looking
the key up with the same namespace, before expiry, returns `(true, v)`.
The lookup runs on the directory `store` produced; the directory is assumed to
hold no other entry for that fingerprint prefix (the "immediately after
store" scenario of the claim). -/
theorem c1_round_trip (v args : PyVal) (kwargs : Option Kwargs) (name : Option PyStr)
    (tl stl : Int) (t1 t2 : Ts) (st : CacheState) (bs content : List Nat)
    (hkey : dumpsKey (normalizeArgs args) (kwargs.getD []) = some bs)
    (hv : encodeVal v = some content)
    (hvalid : validTs t1 = true)
    (hlive : tsDiff t2 t1 ≤ tl)
    (hst : ∀ f ∈ st, (mkFilePre name (sha256hex bs)).isPrefixOf f.name = false) :
    check args kwargs name tl t2 (store v args kwargs name stl t1 st).2 =
      (Except.ok (true, some v), (store v args kwargs name stl t1 st).2) := by
  rw [store_fresh hkey hv hst]
  simp only [check, hkey]
  rw [checkLoop_scan _ name tl t2 st (fun g hg => Or.inr (Or.inl (hst g hg))),
    scanDeletes_skip _ name tl t2 st (fun g hg => Or.inr (hst g hg))]
  simp only [removeAll]
  exact checkLoop_hit [] _ (nameSkip_mkFilePre₂ name (sha256hex bs) _ _)
    (prefixOf_append₂ _ _ _) (regexTs_entryName _ t1) (parseTs14_strftime14 hvalid)
    hlive (pickleLoads_encodeVal hv)

/-- Witness for C1 at a concrete input. -/
theorem c1_round_trip_witness :
    check (.pyint 0) none none 259200 ⟨2024, 1, 1, 0, 0, 30⟩
        (store (.pyint 42) (.pyint 0) none none 0 ⟨2024, 1, 1, 0, 0, 0⟩ []).2 =
      (Except.ok (true, some (.pyint 42)),
        (store (.pyint 42) (.pyint 0) none none 0 ⟨2024, 1, 1, 0, 0, 0⟩ []).2) :=
  c1_round_trip (.pyint 42) (.pyint 0) none none 259200 0 ⟨2024, 1, 1, 0, 0, 0⟩
    ⟨2024, 1, 1, 0, 0, 30⟩ [] _ _ rfl rfl rfl (by decide) (by simp)

/-- **C5**: an entry stored at `t1` and looked up at any `t2` with
`t2 - t1 > time_limit` yields `(false, absent)` and the entry file is deleted
by that lookup; the directory held no other entry for the prefix. -/
theorem c5_expiry (v args : PyVal) (kwargs : Option Kwargs) (name : Option PyStr)
    (tl stl : Int) (t1 t2 : Ts) (st : CacheState) (bs content : List Nat)
    (hkey : dumpsKey (normalizeArgs args) (kwargs.getD []) = some bs)
    (hv : encodeVal v = some content)
    (hvalid : validTs t1 = true)
    (hexp : ¬ tsDiff t2 t1 ≤ tl)
    (hst : ∀ f ∈ st, (mkFilePre name (sha256hex bs)).isPrefixOf f.name = false) :
    check args kwargs name tl t2 (store v args kwargs name stl t1 st).2 =
      (Except.ok (false, none), st) := by
  rw [store_fresh hkey hv hst]
  simp only [check, hkey]
  set pfx := mkFilePre name (sha256hex bs) with hpfx
  set f : FsFile := ⟨pfx ++ '_' :: strftime14 t1 ++ pklSuffix, content⟩ with hf
  have hfpass : scanPasses pfx name tl t2 f :=
    Or.inr (Or.inr ⟨strftime14 t1, regexTs_entryName pfx t1,
      Or.inr ⟨t1, parseTs14_strftime14 hvalid, hexp⟩⟩)
  have hpass : ∀ g ∈ st ++ [f], scanPasses pfx name tl t2 g := by
    intro g hg
    rcases List.mem_append.mp hg with h1 | h1
    · exact Or.inr (Or.inl (hst g h1))
    · have : g = f := by simpa using h1
      exact this ▸ hfpass
  have happ : st ++ [f] = (st ++ [f]) ++ [] := by simp
  rw [happ, checkLoop_scan pfx name tl t2 (st ++ [f]) hpass []]
  have hdel : scanDeletes pfx name tl t2 (st ++ [f]) = [f.name] := by
    have hsplit : scanDeletes pfx name tl t2 (st ++ [f]) =
        scanDeletes pfx name tl t2 st ++ scanDeletes pfx name tl t2 [f] := by
      simp [scanDeletes, List.filterMap_append]
    rw [hsplit, scanDeletes_skip pfx name tl t2 st (fun g hg => Or.inr (hst g hg)),
      scanDeletes_cons_del [] (nameSkip_mkFilePre₂ name (sha256hex bs) _ _)
        (prefixOf_append₂ _ _ _) (regexTs_entryName pfx t1)
        (Or.inr ⟨t1, parseTs14_strftime14 hvalid, hexp⟩)]
    rfl
  rw [hdel]
  have hrm : removeAll [f.name] ((st ++ [f]) ++ []) = st := by
    simp only [List.append_nil, removeAll]
    show removeFile f.name (st ++ [f]) = st
    apply removeFile_append_single
    intro g hg
    rw [hf]
    exact ne_of_not_prefixOf₂ _ _ (hst g hg)
  rw [hrm]
  rfl

/-- Witness for C5 at a concrete input: one month later than a three-day
limit, the lookup misses and the directory is empty again. -/
theorem c5_expiry_witness :
    check (.pyint 0) none none 259200 ⟨2024, 2, 1, 0, 0, 0⟩
        (store (.pyint 42) (.pyint 0) none none 0 ⟨2024, 1, 1, 0, 0, 0⟩ []).2 =
      (Except.ok (false, none), []) :=
  c5_expiry (.pyint 42) (.pyint 0) none none 259200 0 ⟨2024, 1, 1, 0, 0, 0⟩
    ⟨2024, 2, 1, 0, 0, 0⟩ [] _ _ rfl rfl rfl (by decide) (by simp)

/-- **C10**: passing a non-tuple `args` value is the same call as passing the
one-element tuple holding it, and omitting `kwargs` is the same call as
passing the empty mapping, for both `check` and `store` — results and on-disk
effects are literally equal. -/
theorem c10_arg_normalization (x r : PyVal) (kwargs : Option Kwargs)
    (name : Option PyStr) (tl stl : Int) (now : Ts) (st : CacheState)
    (hx : isTuple x = false) :
    (check x kwargs name tl now st = check (.pytuple [x]) kwargs name tl now st ∧
      store r x kwargs name stl now st = store r (.pytuple [x]) kwargs name stl now st) ∧
    (check x none name tl now st = check x (some []) name tl now st ∧
      store r x none name stl now st = store r x (some []) name stl now st) := by
  have hnorm : normalizeArgs x = .pytuple [x] := by
    rw [normalizeArgs, if_neg]
    simp [hx]
  have hnorm2 : normalizeArgs (.pytuple [x]) = .pytuple [x] := rfl
  refine ⟨⟨?_, ?_⟩, rfl, rfl⟩
  · simp only [check, hnorm, hnorm2]
  · simp only [store, hnorm, hnorm2]

/-- Witness for C10 at the non-tuple value `5`. -/
theorem c10_arg_normalization_witness :
    (check (.pyint 5) none none 259200 ⟨2024, 1, 1, 0, 0, 0⟩ [] =
        check (.pytuple [.pyint 5]) none none 259200 ⟨2024, 1, 1, 0, 0, 0⟩ [] ∧
      store (.pyint 7) (.pyint 5) none none 0 ⟨2024, 1, 1, 0, 0, 0⟩ [] =
        store (.pyint 7) (.pytuple [.pyint 5]) none none 0 ⟨2024, 1, 1, 0, 0, 0⟩ []) ∧
    (check (.pyint 5) none none 259200 ⟨2024, 1, 1, 0, 0, 0⟩ [] =
        check (.pyint 5) (some []) none 259200 ⟨2024, 1, 1, 0, 0, 0⟩ [] ∧
      store (.pyint 7) (.pyint 5) none none 0 ⟨2024, 1, 1, 0, 0, 0⟩ [] =
        store (.pyint 7) (.pyint 5) (some []) none 0 ⟨2024, 1, 1, 0, 0, 0⟩ []) :=
  c10_arg_normalization (.pyint 5) (.pyint 7) none none 259200 0
    ⟨2024, 1, 1, 0, 0, 0⟩ [] rfl

/-- **C3** (code bug): a file matching the fingerprint prefix whose name does
not end in a 14-digit token followed by `".pkl"` makes `check` raise
`AttributeError` (`re.search` returns `None` and `match.group(1)` fails); the
file is not deleted and no miss is returned, against the claimed
delete-and-miss self-healing (which the source's own `except` comment and the
sibling loop in `cache_this` intend). -/
theorem c3_attribute_error :
    check (.pyint 0) none none 259200 ⟨2024, 1, 1, 0, 0, 30⟩
        [⟨exKey ++ '_' :: "corrupt.pkl".data, [0, 2]⟩] =
      (Except.error CErr.attributeError,
        [⟨exKey ++ '_' :: "corrupt.pkl".data, [0, 2]⟩]) := rfl

/-- **C4** (counterexample): two live entries for the same fingerprint, the
older one first in directory listing order; `check` answers with the first
(older) entry's value 1, while the newest entry holds value 2, and deletes
nothing — refuting the select-the-maximum-`created_at`-and-prune claim. -/
theorem c4_counterexample :
    check (.pyint 0) none none 259200 ⟨2024, 1, 2, 1, 0, 0⟩
        [⟨exEntryName ⟨2024, 1, 1, 0, 0, 0⟩, [0, 2]⟩,
         ⟨exEntryName ⟨2024, 1, 2, 0, 0, 0⟩, [0, 4]⟩] =
      (Except.ok (true, some (.pyint 1)),
        [⟨exEntryName ⟨2024, 1, 1, 0, 0, 0⟩, [0, 2]⟩,
         ⟨exEntryName ⟨2024, 1, 2, 0, 0, 0⟩, [0, 4]⟩]) ∧
    pickleLoads [0, 4] = some (.pyint 2) ∧ (2 : Int) ≠ 1 :=
  ⟨rfl, rfl, by decide⟩

/-- **C4 (amended)**: `check` returns the first unexpired parseable entry in
directory listing order; the prefix-matching entries scanned before it whose
timestamp is unparseable or expired are deleted, and entries after it are not
visited at all. -/
theorem c4_first_match (args : PyVal) (kwargs : Option Kwargs) (name : Option PyStr)
    (tl : Int) (now : Ts) (pre post : List FsFile) (f : FsFile)
    (bs : List Nat) (pfx ds : PyStr) (t : Ts) (v : PyVal)
    (hkey : dumpsKey (normalizeArgs args) (kwargs.getD []) = some bs)
    (hpfx : pfx = mkFilePre name (sha256hex bs))
    (hpre : ∀ g ∈ pre, scanPasses pfx name tl now g)
    (h1 : nameSkip name f.name = false) (h2 : pfx.isPrefixOf f.name = true)
    (h3 : regexTs f.name = some ds) (h4 : parseTs14 ds = some t)
    (h5 : tsDiff now t ≤ tl) (h6 : pickleLoads f.content = some v) :
    check args kwargs name tl now (pre ++ f :: post) =
      (Except.ok (true, some v),
        removeAll (scanDeletes pfx name tl now pre) (pre ++ f :: post)) := by
  subst hpfx
  simp only [check, hkey]
  rw [checkLoop_scan _ name tl now pre hpre (f :: post)]
  exact checkLoop_hit post _ h1 h2 h3 h4 h5 h6

/-- Witness for the amended C4: an expired sibling before the live entry is
deleted, a live sibling after it is untouched. -/
theorem c4_first_match_witness :
    check (.pyint 0) none none 259200 ⟨2024, 1, 2, 1, 0, 0⟩
        ([⟨exEntryName ⟨2023, 1, 1, 0, 0, 0⟩, [0, 6]⟩] ++
          ⟨exEntryName ⟨2024, 1, 1, 0, 0, 0⟩, [0, 2]⟩ ::
          [⟨exEntryName ⟨2024, 1, 2, 0, 0, 0⟩, [0, 4]⟩]) =
      (Except.ok (true, some (.pyint 1)),
        removeAll
          (scanDeletes exKey none 259200 ⟨2024, 1, 2, 1, 0, 0⟩
            [⟨exEntryName ⟨2023, 1, 1, 0, 0, 0⟩, [0, 6]⟩])
          ([⟨exEntryName ⟨2023, 1, 1, 0, 0, 0⟩, [0, 6]⟩] ++
            ⟨exEntryName ⟨2024, 1, 1, 0, 0, 0⟩, [0, 2]⟩ ::
            [⟨exEntryName ⟨2024, 1, 2, 0, 0, 0⟩, [0, 4]⟩])) :=
  c4_first_match (.pyint 0) none none 259200 ⟨2024, 1, 2, 1, 0, 0⟩
    [⟨exEntryName ⟨2023, 1, 1, 0, 0, 0⟩, [0, 6]⟩]
    [⟨exEntryName ⟨2024, 1, 2, 0, 0, 0⟩, [0, 4]⟩]
    ⟨exEntryName ⟨2024, 1, 1, 0, 0, 0⟩, [0, 2]⟩ _ _ _ _ _ rfl rfl
    (by
      intro g hg
      simp only [List.mem_singleton] at hg
      subst hg
      exact Or.inr (Or.inr ⟨_, rfl, Or.inr ⟨_, rfl, by decide⟩⟩))
    rfl rfl rfl rfl (by decide) rfl

/-- **C9** (counterexample): a live entry whose payload does not deserialize
makes `check` raise the `pickle.load` error; the entry is not deleted and no
`(false, absent)` is returned. -/
theorem c9_counterexample :
    check (.pyint 0) none none 259200 ⟨2024, 1, 1, 0, 0, 30⟩
        [⟨exEntryName ⟨2024, 1, 1, 0, 0, 0⟩, [99]⟩] =
      (Except.error CErr.unpicklingError,
        [⟨exEntryName ⟨2024, 1, 1, 0, 0, 0⟩, [99]⟩]) ∧
    pickleLoads [99] = none :=
  ⟨rfl, rfl⟩

/-- **C9 (amended)**: when the first matching live entry's payload fails to
deserialize, the deserialization error propagates out of `check` and the entry
is not deleted — the directory is exactly as before the call. -/
theorem c9_load_error (args : PyVal) (kwargs : Option Kwargs) (name : Option PyStr)
    (tl : Int) (now : Ts) (pre post : List FsFile) (f : FsFile)
    (bs : List Nat) (pfx ds : PyStr) (t : Ts)
    (hkey : dumpsKey (normalizeArgs args) (kwargs.getD []) = some bs)
    (hpfx : pfx = mkFilePre name (sha256hex bs))
    (hpre : ∀ g ∈ pre, nameSkip name g.name = true ∨ pfx.isPrefixOf g.name = false)
    (h1 : nameSkip name f.name = false) (h2 : pfx.isPrefixOf f.name = true)
    (h3 : regexTs f.name = some ds) (h4 : parseTs14 ds = some t)
    (h5 : tsDiff now t ≤ tl) (h6 : pickleLoads f.content = none) :
    check args kwargs name tl now (pre ++ f :: post) =
      (Except.error CErr.unpicklingError, pre ++ f :: post) := by
  subst hpfx
  simp only [check, hkey]
  rw [checkLoop_scan _ name tl now pre (fun g hg => (hpre g hg).imp id Or.inl) (f :: post),
    scanDeletes_skip _ name tl now pre hpre]
  simp only [removeAll]
  exact checkLoop_err post _ h1 h2 h3 h4 h5 h6

/-- Witness for the amended C9 at a concrete corrupt payload. -/
theorem c9_load_error_witness :
    check (.pyint 0) none none 259200 ⟨2024, 1, 1, 0, 0, 30⟩
        ([] ++ ⟨exEntryName ⟨2024, 1, 1, 0, 0, 0⟩, [99]⟩ :: []) =
      (Except.error CErr.unpicklingError,
        [] ++ ⟨exEntryName ⟨2024, 1, 1, 0, 0, 0⟩, [99]⟩ :: []) :=
  c9_load_error (.pyint 0) none none 259200 ⟨2024, 1, 1, 0, 0, 30⟩ [] []
    ⟨exEntryName ⟨2024, 1, 1, 0, 0, 0⟩, [99]⟩ _ _ _ _ rfl rfl (by simp)
    rfl rfl rfl rfl (by decide) rfl

/-- **C7** (counterexample): two `store` calls for the same key within the
same second mint the same identifier and the second write silently replaces
the first entry's content: afterwards the directory holds exactly one file,
holding the second value's bytes, not the first's. -/
theorem c7_counterexample :
    ((store (.pyint 2) (.pyint 0) none none 0 ⟨2024, 1, 1, 0, 0, 0⟩
        (store (.pyint 1) (.pyint 0) none none 0 ⟨2024, 1, 1, 0, 0, 0⟩ []).2).2).map
        (fun f => f.content) = [[0, 4]] ∧
    encodeVal (.pyint 1) = some [0, 2] ∧ ([0, 2] : List Nat) ≠ [0, 4] :=
  ⟨rfl, rfl, by decide⟩

/-- **C7 (amended)**: `store` never inspects or removes existing entries.  Two
stores of the same key at times whose second-resolution renderings differ
create two distinct files (the earlier entry survives untouched), but a second
store within the same second reuses the identical identifier and silently
replaces the earlier content. -/
theorem c7_store_overwrite (v1 v2 args : PyVal) (kwargs : Option Kwargs)
    (name : Option PyStr) (stl1 stl2 : Int) (t1 t2 : Ts) (st : CacheState)
    (bs c1 c2 : List Nat)
    (hkey : dumpsKey (normalizeArgs args) (kwargs.getD []) = some bs)
    (hv1 : encodeVal v1 = some c1) (hv2 : encodeVal v2 = some c2)
    (hst : ∀ f ∈ st, (mkFilePre name (sha256hex bs)).isPrefixOf f.name = false) :
    (strftime14 t1 ≠ strftime14 t2 →
      (store v2 args kwargs name stl2 t2 (store v1 args kwargs name stl1 t1 st).2).2 =
        st ++ [⟨mkFilePre name (sha256hex bs) ++ '_' :: strftime14 t1 ++ pklSuffix, c1⟩,
               ⟨mkFilePre name (sha256hex bs) ++ '_' :: strftime14 t2 ++ pklSuffix, c2⟩]) ∧
    (t1 = t2 →
      (store v2 args kwargs name stl2 t2 (store v1 args kwargs name stl1 t1 st).2).2 =
        st ++ [⟨mkFilePre name (sha256hex bs) ++ '_' :: strftime14 t2 ++ pklSuffix, c2⟩]) := by
  constructor
  · intro hne
    rw [store_fresh hkey hv1 hst]
    simp only [store, hkey, hv2]
    rw [writeFile_fresh]
    · simp
    · intro f hf
      rcases List.mem_append.mp hf with hfs | hfe
      · exact ne_of_not_prefixOf₂ _ _ (hst f hfs)
      · have hfeq : f = ⟨mkFilePre name (sha256hex bs) ++ '_' :: strftime14 t1 ++ pklSuffix,
            c1⟩ := by simpa using hfe
        subst hfeq
        intro he
        apply hne
        have h2 := List.append_cancel_right he
        have h3 := List.append_cancel_left h2
        exact (List.cons.injEq _ _ _ _ ▸ h3).2
  · intro heq
    subst heq
    rw [store_fresh hkey hv1 hst]
    simp only [store, hkey, hv2]
    exact writeFile_replace (fun f hf => ne_of_not_prefixOf₂ _ _ (hst f hf))

/-- Witness for the amended C7: stores one second apart coexist; stores in the
same second collide on one identifier. -/
theorem c7_store_overwrite_witness :
    (strftime14 ⟨2024, 1, 1, 0, 0, 0⟩ ≠ strftime14 ⟨2024, 1, 1, 0, 0, 1⟩ →
      (store (.pyint 2) (.pyint 0) none none 0 ⟨2024, 1, 1, 0, 0, 1⟩
          (store (.pyint 1) (.pyint 0) none none 0 ⟨2024, 1, 1, 0, 0, 0⟩ []).2).2 =
        [] ++ [⟨mkFilePre none (sha256hex [3, 1, 1, 0, 0]) ++
                  '_' :: strftime14 ⟨2024, 1, 1, 0, 0, 0⟩ ++ pklSuffix, [0, 2]⟩,
               ⟨mkFilePre none (sha256hex [3, 1, 1, 0, 0]) ++
                  '_' :: strftime14 ⟨2024, 1, 1, 0, 0, 1⟩ ++ pklSuffix, [0, 4]⟩]) ∧
    (⟨2024, 1, 1, 0, 0, 0⟩ = (⟨2024, 1, 1, 0, 0, 1⟩ : Ts) →
      (store (.pyint 2) (.pyint 0) none none 0 ⟨2024, 1, 1, 0, 0, 1⟩
          (store (.pyint 1) (.pyint 0) none none 0 ⟨2024, 1, 1, 0, 0, 0⟩ []).2).2 =
        [] ++ [⟨mkFilePre none (sha256hex [3, 1, 1, 0, 0]) ++
                  '_' :: strftime14 ⟨2024, 1, 1, 0, 0, 1⟩ ++ pklSuffix, [0, 4]⟩]) :=
  c7_store_overwrite (.pyint 1) (.pyint 2) (.pyint 0) none none 0 0
    ⟨2024, 1, 1, 0, 0, 0⟩ ⟨2024, 1, 1, 0, 0, 1⟩ [] [3, 1, 1, 0, 0] [0, 2] [0, 4]
    rfl rfl rfl (by simp)

/-- Two prefixes of one list are comparable. -/
theorem prefixChain {l₁ l₂ l₃ : PyStr} (h1 : l₁ <+: l₃) (h2 : l₂ <+: l₃) :
    l₁ <+: l₂ ∨ l₂ <+: l₁ :=
  List.prefix_or_prefix_of_prefix h1 h2

theorem isPre_triple (l a b c : PyStr) : l <+: l ++ a ++ b ++ c := by
  have he : l ++ a ++ b ++ c = l ++ (a ++ b ++ c) := by simp [List.append_assoc]
  rw [he]
  exact List.prefix_append l (a ++ b ++ c)

/-- **C8**: a lookup under namespace `B` after a store under a different
namespace `A` — neither namespace string a prefix of the other — returns
`(false, absent)` and leaves the whole directory, the `A`-prefixed entry
included, untouched (no file is read into the answer and none is deleted). -/
theorem c8_namespace_isolation (A B : PyStr) (v1 args : PyVal) (kwargs : Option Kwargs)
    (tl stl : Int) (t1 now : Ts) (st : CacheState) (bs c1 : List Nat)
    (hA : A ≠ []) (hB : B ≠ [])
    (hAB : ¬ A <+: B) (hBA : ¬ B <+: A)
    (hkey : dumpsKey (normalizeArgs args) (kwargs.getD []) = some bs)
    (hv1 : encodeVal v1 = some c1)
    (hst : ∀ f ∈ st, (mkFilePre (some B) (sha256hex bs)).isPrefixOf f.name = false) :
    check args kwargs (some B) tl now (store v1 args kwargs (some A) stl t1 st).2 =
      (Except.ok (false, none), (store v1 args kwargs (some A) stl t1 st).2) := by
  simp only [store, hkey, hv1]
  simp only [check, hkey]
  have hnotB : ∀ g ∈ writeFile
      (mkFilePre (some A) (sha256hex bs) ++ '_' :: strftime14 t1 ++ pklSuffix) c1 st,
      (mkFilePre (some B) (sha256hex bs)).isPrefixOf g.name = false := by
    intro g hg
    rcases mem_writeFile hg with hgs | hge
    · exact hst g hgs
    · subst hge
      rw [prefixOf_false_iff]
      intro hc
      rw [mkFilePre, if_neg hB] at hc
      rw [mkFilePre, if_neg hA] at hc
      have hApre : A <+: A ++ '_' :: sha256hex bs ++ '_' :: strftime14 t1 ++ pklSuffix :=
        isPre_triple A _ _ _
      have hBpre : B <+: B ++ '_' :: sha256hex bs := List.prefix_append B _
      rcases prefixChain hc hApre with hca | hca
      · exact hBA (hBpre.trans hca)
      · rcases prefixChain hca hBpre with hcb | hcb
        · exact hAB hcb
        · exact hBA hcb
  have hpass : ∀ g ∈ writeFile
      (mkFilePre (some A) (sha256hex bs) ++ '_' :: strftime14 t1 ++ pklSuffix) c1 st,
      scanPasses (mkFilePre (some B) (sha256hex bs)) (some B) tl now g :=
    fun g hg => Or.inr (Or.inl (hnotB g hg))
  set W := writeFile
    (mkFilePre (some A) (sha256hex bs) ++ '_' :: strftime14 t1 ++ pklSuffix) c1 st with hW
  have happ : W = W ++ [] := by simp
  rw [happ, checkLoop_scan _ (some B) tl now W (happ ▸ hpass) [],
    scanDeletes_skip _ (some B) tl now W (fun g hg => Or.inr (hnotB g (happ ▸ hg)))]
  rfl

/-- Witness for C8 with namespaces `"A"` and `"B"`. -/
theorem c8_namespace_isolation_witness :
    check (.pyint 0) none (some ['B']) 259200 ⟨2024, 1, 1, 0, 0, 30⟩
        (store (.pyint 42) (.pyint 0) none (some ['A']) 0 ⟨2024, 1, 1, 0, 0, 0⟩ []).2 =
      (Except.ok (false, none),
        (store (.pyint 42) (.pyint 0) none (some ['A']) 0 ⟨2024, 1, 1, 0, 0, 0⟩ []).2) :=
  c8_namespace_isolation ['A'] ['B'] (.pyint 42) (.pyint 0) none 259200 0
    ⟨2024, 1, 1, 0, 0, 0⟩ ⟨2024, 1, 1, 0, 0, 30⟩ [] _ _ (by decide) (by decide)
    (by decide) (by decide) rfl rfl (by simp)

/-! ### The decorator's scan loop under the sentinel key -/

theorem splitFirst_cons_eq (sep : Char) (cs : PyStr) :
    splitFirst sep (sep :: cs) = some ([], cs) := by
  simp [splitFirst]

theorem splitFirst_cons_ne {x sep : Char} (h : ¬ x = sep) (cs : PyStr) :
    splitFirst sep (x :: cs) =
      match splitFirst sep cs with
      | some (b, a) => some (x :: b, a)
      | none => none := by
  simp [splitFirst, h]

theorem splitFirst_after_mem {sep c : Char} {Y : PyStr} :
    ∀ (X l b a : PyStr), splitFirst sep l = some (b, a) → l = X ++ sep :: c :: Y →
      c ∈ a := by
  intro X
  induction X with
  | nil =>
    intro l b a h hl
    subst hl
    rw [List.nil_append, splitFirst_cons_eq] at h
    simp only [Option.some.injEq, Prod.mk.injEq] at h
    obtain ⟨_, ha⟩ := h
    rw [← ha]
    simp
  | cons x X ih =>
    intro l b a h hl
    subst hl
    by_cases hx : x = sep
    · subst hx
      rw [List.cons_append, splitFirst_cons_eq] at h
      simp only [Option.some.injEq, Prod.mk.injEq] at h
      obtain ⟨_, ha⟩ := h
      rw [← ha]
      simp
    · rw [List.cons_append, splitFirst_cons_ne hx] at h
      cases hsp : splitFirst sep (X ++ sep :: c :: Y) with
      | none => rw [hsp] at h; exact absurd h (by simp)
      | some p =>
        obtain ⟨b', a'⟩ := p
        rw [hsp] at h
        simp only [Option.some.injEq, Prod.mk.injEq] at h
        obtain ⟨_, ha⟩ := h
        exact ha ▸ ih _ b' a' hsp rfl

theorem strptimePkl_chars {s : PyStr} {t : Ts} (h : strptimePkl s = some t) :
    ∀ c ∈ s, isDig c = true ∨ c ∈ pklSuffix := by
  rw [strptimePkl] at h
  split at h
  · rename_i hcond
    obtain ⟨hlen, hdig, hdrop⟩ := hcond
    intro c hc
    rw [← List.take_append_drop 14 s] at hc
    rcases List.mem_append.mp hc with h1 | h1
    · exact Or.inl (List.all_eq_true.mp hdig c h1)
    · exact Or.inr (hdrop ▸ h1)
  · exact absurd h (by simp)

theorem strptimePkl_no_e {s : PyStr} (h : 'e' ∈ s) : strptimePkl s = none := by
  cases hsp : strptimePkl s with
  | none => rfl
  | some t =>
    rcases strptimePkl_chars hsp 'e' h with hd | hm
    · exact absurd hd (by decide)
    · exact absurd hm (by decide)

/-- Every file name matching the sentinel prefix contains, after an
underscore, the letter `'e'` of `key_error` — which dooms the
`split('_', 1)` / `strptime` parse of the decorator. -/
theorem keyError_filename_shape (name : Option PyStr) {fname : PyStr}
    (h : (mkFilePre name keyErrorKey).isPrefixOf fname = true) :
    ∃ X Y, fname = X ++ '_' :: 'e' :: Y := by
  obtain ⟨tail, htail⟩ := List.isPrefixOf_iff_prefix.mp h
  cases name with
  | none =>
    refine ⟨['k', 'e', 'y'], ['r', 'r', 'o', 'r'] ++ tail, ?_⟩
    rw [← htail]
    simp [mkFilePre, keyErrorKey]
  | some n =>
    by_cases hn : n = []
    · subst hn
      refine ⟨['k', 'e', 'y'], ['r', 'r', 'o', 'r'] ++ tail, ?_⟩
      rw [← htail]
      simp [mkFilePre, keyErrorKey]
    · refine ⟨n ++ ['_', 'k', 'e', 'y'], ['r', 'r', 'o', 'r'] ++ tail, ?_⟩
      rw [← htail]
      simp [mkFilePre, keyErrorKey, hn]

/-- The decorator's scan loop under the sentinel key `"key_error"` always
falls through to recomputation, whatever the directory holds. -/
theorem cacheLoop_keyError (name : Option PyStr) (tl : Int) (now : Ts) :
    ∀ (files : List FsFile) (st : CacheState),
      (cacheLoop (mkFilePre name keyErrorKey) name tl now files st).1 =
        LoopOut.fallthrough := by
  intro files
  induction files with
  | nil => intro st; rfl
  | cons f rest ih =>
    intro st
    by_cases h1 : nameSkip name f.name = true
    · simp only [cacheLoop, h1, if_true]
      exact ih st
    · have h1f : nameSkip name f.name = false := by
        cases hb : nameSkip name f.name
        · rfl
        · exact absurd hb h1
      by_cases h2 : (mkFilePre name keyErrorKey).isPrefixOf f.name = true
      · obtain ⟨X, Y, hXY⟩ := keyError_filename_shape name h2
        cases hsp : splitFirst '_' f.name with
        | none =>
          simp only [cacheLoop, h1f, Bool.false_eq_true, if_false, h2, if_true, hsp,
            List.isPrefixOf_iff_prefix.mp h2]
          exact ih (removeFile f.name st)
        | some p =>
          obtain ⟨b, a⟩ := p
          have hstp : strptimePkl a = none :=
            strptimePkl_no_e (splitFirst_after_mem X f.name b a hsp hXY)
          simp only [cacheLoop, h1f, Bool.false_eq_true, if_false, h2, if_true, hsp, hstp,
            List.isPrefixOf_iff_prefix.mp h2]
          exact ih (removeFile f.name st)
      · have h2f : (mkFilePre name keyErrorKey).isPrefixOf f.name = false := by
          cases hb : (mkFilePre name keyErrorKey).isPrefixOf f.name
          · rfl
          · exact absurd hb h2
        simp only [cacheLoop, h1f, h2f, Bool.false_eq_true, if_false,
          prefixOf_false_iff.mp h2f]
        exact ih st

/-- **C6**: when the call arguments cannot be serialized, `check` swallows the
failure and returns `(false, absent)` at once with the directory untouched,
and the decorator falls back to the sentinel key `"key_error"`, never finds a
parseable entry under it, recomputes via the wrapped function and surfaces no
error (the recomputed result is assumed picklable, so the final write
succeeds). -/
theorem c6_serialization_failure (args : PyVal) (kwargs : Option Kwargs)
    (name cname : Option PyStr) (tl ctl : Int) (now cnow : Ts) (st cst : CacheState)
    (cargs : List PyVal) (ckw : Kwargs) (func : List PyVal → Kwargs → PyVal)
    (rbs : List Nat)
    (hkey : dumpsKey (normalizeArgs args) (kwargs.getD []) = none)
    (hckey : dumpsKey (.pytuple cargs) ckw = none)
    (hres : encodeVal (func cargs ckw) = some rbs) :
    check args kwargs name tl now st = (Except.ok (false, none), st) ∧
    (cacheThisCall func cname ctl cargs ckw cnow cst).1 =
      Except.ok (func cargs ckw, true) := by
  constructor
  · simp only [check, hkey]
  · simp only [cacheThisCall, hckey]
    have hf := cacheLoop_keyError cname ctl cnow cst cst
    cases hcl : cacheLoop (mkFilePre cname keyErrorKey) cname ctl cnow cst cst with
    | mk o st' =>
      rw [hcl] at hf
      simp only at hf
      subst hf
      simp [hres]

/-- Witness for C6: unserializable arguments, a pre-existing sentinel entry in
the directory, a decorated function returning `7`. -/
theorem c6_serialization_failure_witness :
    check (.unpicklable 0) none none 259200 ⟨2024, 1, 1, 0, 0, 0⟩
        [⟨keyErrorKey ++ '_' :: strftime14 ⟨2024, 1, 1, 0, 0, 0⟩ ++ pklSuffix, [0, 84]⟩] =
      (Except.ok (false, none),
        [⟨keyErrorKey ++ '_' :: strftime14 ⟨2024, 1, 1, 0, 0, 0⟩ ++ pklSuffix, [0, 84]⟩]) ∧
    (cacheThisCall (fun _ _ => .pyint 7) (some ['m']) 1209600 [.unpicklable 1] []
        ⟨2024, 1, 1, 0, 0, 30⟩
        [⟨keyErrorKey ++ '_' :: strftime14 ⟨2024, 1, 1, 0, 0, 0⟩ ++ pklSuffix, [0, 84]⟩]).1 =
      Except.ok ((fun (_ : List PyVal) (_ : Kwargs) => PyVal.pyint 7) [.unpicklable 1] [], true) :=
  c6_serialization_failure (.unpicklable 0) none none (some ['m']) 259200 1209600
    ⟨2024, 1, 1, 0, 0, 0⟩ ⟨2024, 1, 1, 0, 0, 30⟩
    [⟨keyErrorKey ++ '_' :: strftime14 ⟨2024, 1, 1, 0, 0, 0⟩ ++ pklSuffix, [0, 84]⟩]
    [⟨keyErrorKey ++ '_' :: strftime14 ⟨2024, 1, 1, 0, 0, 0⟩ ++ pklSuffix, [0, 84]⟩]
    [.unpicklable 1] [] (fun _ _ => .pyint 7) _ rfl rfl rfl

/-- **C2** (code bug): with a namespace, the decorator's filename parse
(`split('_', 1)` then `strptime("%Y%m%d%H%M%S.pkl")`) always fails on the very
names the decorator writes (`name_key_timestamp.pkl`), so a second call within
the time limit deletes the fresh entry and invokes the wrapped function a
second time: the invoked-flag of both calls is `true` (the returned values are
equal only because the function is pure).  Without a namespace the second call
hits the cache and does not invoke the function, isolating the bug to the
named case.  The behaviour contradicts the decorator's own docstring. -/
theorem c2_named_cache_never_hits :
    (cacheThisCall (fun _ _ => .pyint 3) (some ['m']) 1209600
        [.pyint 1, .pyint 2] [] ⟨2024, 1, 1, 0, 0, 0⟩ []).1 =
      Except.ok (.pyint 3, true) ∧
    (cacheThisCall (fun _ _ => .pyint 3) (some ['m']) 1209600
        [.pyint 1, .pyint 2] [] ⟨2024, 1, 1, 0, 0, 30⟩
        (cacheThisCall (fun _ _ => .pyint 3) (some ['m']) 1209600
          [.pyint 1, .pyint 2] [] ⟨2024, 1, 1, 0, 0, 0⟩ []).2).1 =
      Except.ok (.pyint 3, true) ∧
    (cacheThisCall (fun _ _ => .pyint 3) none 1209600
        [.pyint 1, .pyint 2] [] ⟨2024, 1, 1, 0, 0, 30⟩
        (cacheThisCall (fun _ _ => .pyint 3) none 1209600
          [.pyint 1, .pyint 2] [] ⟨2024, 1, 1, 0, 0, 0⟩ []).2).1 =
      Except.ok (.pyint 3, false) :=
  ⟨rfl, rfl, rfl⟩

end Cacher
